import Mathlib

/-!
Shallow embedding of the blackjack rules engine from `src/blackjack.hpp`
(namespace `bj`): card model, shoe, hand valuation, the round state machine
and the batch simulation harness, together with theorems checking the
natural-language specification against it.

Machine integers of the source (`int`, `int64_t`, `size_t`, `uint64_t`) are
modelled as `Nat`/`Int`; all quantities the theorems touch (totals, bets,
payouts, counters) stay far below any overflow boundary, and the C++
truncating division on `int64_t` is rendered as `Int.tdiv`.
-/

namespace bj

/-- Ranks as in the C++ enum: `Two = 2`, ..., `King = 13`, `Ace = 14`. -/
abbrev Rank := Nat

/-- Suits as in the C++ enum: 0 = Clubs, 1 = Diamonds, 2 = Hearts, 3 = Spades. -/
abbrev Suit := Nat

structure Card where
  rank : Rank
  suit : Suit
deriving DecidableEq, Repr

/-- `card_value` from the source: pip cards are worth their rank, face cards 10,
the Ace 11 (adjusted later by the hand valuation); out-of-range ranks fall
through the `switch` to `return 0`. -/
def card_value (r : Rank) : Nat :=
  if 2 ≤ r ∧ r ≤ 9 then r
  else if 10 ≤ r ∧ r ≤ 13 then 10
  else if r = 14 then 11
  else 0

def Ace : Rank := 14

-- ---------- Rules ----------

structure Rules where
  num_decks : Nat
  dealer_hits_soft17 : Bool
  double_allowed : Bool
  double_after_split : Bool
  surrender : Bool
  peek_for_blackjack : Bool
  blackjack_pays_num : Int
  blackjack_pays_den : Int
deriving DecidableEq, Repr

/-- The default member initializers of `struct Rules`. -/
def defaultRules : Rules :=
  { num_decks := 6
    dealer_hits_soft17 := true
    double_allowed := true
    double_after_split := true
    surrender := false
    peek_for_blackjack := true
    blackjack_pays_num := 3
    blackjack_pays_den := 2 }

-- ---------- Hand ----------

structure Hand where
  cards : List Card
  doubled : Bool
  surrendered : Bool
deriving DecidableEq, Repr

/-- `Hand::add`: `cards.push_back(c)`. -/
def Hand.add (h : Hand) (c : Card) : Hand :=
  { h with cards := h.cards ++ [c] }

/-- Sum of `card_value` over the hand, every Ace counted as 11
(the first loop of `Hand::hard_total`). -/
def sumValues (cards : List Card) : Nat :=
  (cards.map (fun c => card_value c.rank)).sum

/-- Number of Aces in the hand (the second loop of `Hand::hard_total`). -/
def countAces (cards : List Card) : Nat :=
  (cards.filter (fun c => c.rank = Ace)).length

/-- The reduction loop of `Hand::hard_total`:
`while (total > 21 && aces > 0) { total -= 10; --aces; }` (structural on the
remaining Ace count, which the loop decrements on every pass). -/
def reduceAces : Nat → Nat → Nat
  | total, 0 => total
  | total, aces + 1 => if 21 < total then reduceAces (total - 10) aces else total

/-- `Hand::hard_total`. -/
def Hand.hard_total (h : Hand) : Nat :=
  reduceAces (sumValues h.cards) (countAces h.cards)

/-- `Hand::is_soft`, transcribed faithfully from the source: for each card of
the hand the lambda rejects non-Aces, recomputes `base` by exactly the same
summation/reduction the two leading (dead) locals and `hard_total()` use, and
answers `base <= 21 && (an Ace exists) && base != hard_total()`. -/
def Hand.is_soft (h : Hand) : Bool :=
  h.cards.any (fun c =>
    if c.rank = Ace then
      let base := reduceAces (sumValues h.cards) (countAces h.cards)
      decide (base ≤ 21) && decide (0 < countAces h.cards) && decide (base ≠ h.hard_total)
    else false)

/-- `Hand::is_blackjack`: exactly two cards totalling 21. -/
def Hand.is_blackjack (h : Hand) : Bool :=
  h.cards.length == 2 && h.hard_total == 21

/-- `Hand::is_bust`. -/
def Hand.is_bust (h : Hand) : Bool :=
  decide (21 < h.hard_total)

/-- The totals a hand can make valuing each Ace independently as 11 or 1:
`sumValues - 10*j` for `j` from `0` to the number of Aces. -/
def achievableTotals (h : Hand) : List Nat :=
  (List.range (countAces h.cards + 1)).map (fun j => sumValues h.cards - 10 * j)

/-- Modelled from the spec (§4.3): `is_soft()`'s intended contract — "true iff,
in the optimal (bust-avoiding) total, at least one Ace is still valued at 11",
i.e. the hand has an Ace and the reduction loop leaves at least one Ace
un-reduced (`min aces ((sum - 12) / 10) < aces`). -/
def softSpec (h : Hand) : Bool :=
  decide (min (countAces h.cards) ((sumValues h.cards - 12) / 10) < countAces h.cards)

-- ---------- Shoe ----------

/-- Modelled from the spec: the pseudo-random generator `std::mt19937_64` and
the permutation algorithm of `std::shuffle` live in the C++ standard library,
outside this repository.  The spec's determinism contract ("given the same
seed ... the exact sequence of returned cards is reproducible") and the
standard's guarantee that `std::shuffle` permutes the sequence in place are
modelled by a deterministic 64-bit generator state together with a
deterministic, length-preserving permutation indexed by that state. -/
def rngNext (r : Nat) : Nat :=
  (r * 6364136223846793005 + 1442695040888963407) % 2 ^ 64

/-- Modelled from the spec: a deterministic permutation of the sequence chosen
by the generator state, standing in for the library shuffle algorithm. -/
def shuffleFn (r : Nat) (l : List Card) : List Card :=
  l.rotate (r % (l.length + 1))

structure Shoe where
  cards : List Card
  next : Nat
  rng : Nat
deriving DecidableEq, Repr

/-- `Shoe::shuffle`: permutes `cards_` in place, consuming generator state. -/
def Shoe.shuffle (s : Shoe) : Shoe :=
  { s with cards := shuffleFn s.rng s.cards, rng := rngNext s.rng }

/-- One fresh pack of `decks × 52` cards in the construction order of
`Shoe::reset` (decks, then suits 0..3, then ranks 2..14). -/
def freshCards (decks : Nat) : List Card :=
  (List.range decks).flatMap (fun _ =>
    (List.range 4).flatMap (fun s =>
      (List.range' 2 13).map (fun r => { rank := r, suit := s })))

/-- `Shoe::reset`: rebuild the full pack, shuffle, cursor to 0. -/
def Shoe.reset (s : Shoe) (decks : Nat) : Shoe :=
  { Shoe.shuffle { s with cards := freshCards decks } with next := 0 }

/-- The `Shoe` constructor: seed the generator, then `reset(decks)`. -/
def mkShoe (decks : Nat) (seed : Nat) : Shoe :=
  Shoe.reset { cards := [], next := 0, rng := seed % 2 ^ 64 } decks

/-- `Shoe::draw`: on an exhausted cursor reshuffle in place and reset the
cursor, then return the card at the cursor and advance it.  Indexing an empty
pack (only possible with zero decks, out of contract per the spec) is
undefined behaviour in the C++ and surfaces as `none` here. -/
def Shoe.draw (s : Shoe) : Option (Card × Shoe) :=
  if s.cards.length ≤ s.next then
    match (Shoe.shuffle s).cards[(0 : Nat)]? with
    | none => none
    | some c => some (c, { Shoe.shuffle s with next := 1 })
  else
    match s.cards[s.next]? with
    | none => none
    | some c => some (c, { s with next := s.next + 1 })

/-- `Shoe::remaining`: `cards_.size() - next_`. -/
def Shoe.remaining (s : Shoe) : Nat :=
  s.cards.length - s.next

/-- The spec's Shoe invariant `0 ≤ cursor ≤ size` (the lower bound is
automatic for `Nat`). -/
def Shoe.inv (s : Shoe) : Prop :=
  s.next ≤ s.cards.length

-- ---------- Decisions, strategy, round ----------

inductive Decision where
  | Hit | Stand | Double | Surrender
deriving DecidableEq, Repr

structure Situation where
  player : Hand
  dealer : Hand
  rules : Rules
  can_double : Bool

/-- `Strategy::decide`, modelled as a pure decision function. -/
def Strategy := Situation → Decision

/-- The built-in naive baseline `AlwaysHitUnder17`. -/
def AlwaysHitUnder17 : Strategy := fun s =>
  if s.rules.double_allowed ∧ s.can_double ∧ s.player.cards.length = 2 ∧
      9 ≤ s.player.hard_total ∧ s.player.hard_total ≤ 11 then
    Decision.Double
  else if s.player.hard_total < 17 then Decision.Hit
  else Decision.Stand

inductive Outcome where
  | PlayerBJ | DealerBJ | PlayerBust | DealerBust | PlayerWin | DealerWin | Push | PlayerSurrender
deriving DecidableEq, Repr

structure RoundResult where
  outcome : Outcome
  player_total : Nat
  dealer_total : Nat
  payout_cents : Int
deriving DecidableEq, Repr

/-- `Round::settle`: the payout table, evaluated against the hands at
settlement time (C++ `int64_t` division truncates toward zero: `Int.tdiv`). -/
def settle (rules : Rules) (bet : Int) (player dealer : Hand) (oc : Outcome) : RoundResult :=
  let payout : Int :=
    match oc with
    | Outcome.PlayerBJ => bet + Int.tdiv (bet * rules.blackjack_pays_num) rules.blackjack_pays_den
    | Outcome.DealerBJ => 0
    | Outcome.PlayerBust => 0
    | Outcome.DealerBust => if player.doubled then bet * 4 else bet * 2
    | Outcome.PlayerWin => if player.doubled then bet * 4 else bet * 2
    | Outcome.DealerWin => 0
    | Outcome.Push => if player.doubled then bet * 2 else bet
    | Outcome.PlayerSurrender => Int.tdiv bet 2
  { outcome := oc
    player_total := player.hard_total
    dealer_total := dealer.hard_total
    payout_cents := payout }

/-- How the player turn loop was left. -/
inductive PTExit where
  | surrendered | busted | stood
deriving DecidableEq, Repr

/-- Result of the player-turn loop: exit kind, final player hand, card-source
state, and the number of `Strategy::decide` invocations made so far. -/
structure PTRes (σ : Type) where
  exit : PTExit
  player : Hand
  st : σ
  queries : Nat

/-- The PLAYER TURN loop of `Round::play`, parameterised over the card source
(`drawFn` is `Shoe::draw` in the program; a plain list source is used for the
concrete theorems).  `fuel` bounds the number of loop iterations; every real
execution is reproduced by a large enough fuel.  Each iteration first offers
surrender when enabled on a two-card hand (one `decide` call), then queries
the strategy (a second `decide` call) and dispatches exactly as the source:
a legal Double draws one card and leaves the loop, a Hit draws and either
busts out or repeats with doubling disabled, anything else stands. -/
def playerTurn {σ : Type} (drawFn : σ → Option (Card × σ)) (rules : Rules)
    (strat : Strategy) (dealer : Hand) :
    Nat → Hand → Bool → σ → Nat → Option (PTRes σ)
  | 0, _, _, _, _ => none
  | fuel + 1, player, canDouble, st, q =>
    if rules.surrender ∧ player.cards.length = 2 ∧
        strat { player := player, dealer := dealer, rules := rules, can_double := canDouble } =
          Decision.Surrender then
      some { exit := PTExit.surrendered, player := { player with surrendered := true },
             st := st, queries := q + 1 }
    else if strat { player := player, dealer := dealer, rules := rules, can_double := canDouble } =
          Decision.Double ∧ canDouble then
      match drawFn st with
      | none => none
      | some (c, st1) =>
        some { exit := PTExit.stood, player := { (player.add c) with doubled := true },
               st := st1,
               queries := (if rules.surrender ∧ player.cards.length = 2 then q + 1 else q) + 1 }
    else if strat { player := player, dealer := dealer, rules := rules, can_double := canDouble } =
          Decision.Hit then
      match drawFn st with
      | none => none
      | some (c, st1) =>
        if (player.add c).is_bust then
          some { exit := PTExit.busted, player := player.add c, st := st1,
                 queries := (if rules.surrender ∧ player.cards.length = 2 then q + 1 else q) + 1 }
        else
          playerTurn drawFn rules strat dealer fuel (player.add c) false st1
            ((if rules.surrender ∧ player.cards.length = 2 then q + 1 else q) + 1)
    else
      some { exit := PTExit.stood, player := player, st := st,
             queries := (if rules.surrender ∧ player.cards.length = 2 then q + 1 else q) + 1 }

/-- The DEALER TURN loop of `Round::play`: draw while the hard total is below
17, or exactly 17 with `dealer_hits_soft17` on a (program-)soft hand. -/
def dealerTurn {σ : Type} (drawFn : σ → Option (Card × σ)) (rules : Rules) :
    Nat → Hand → σ → Option (Hand × σ)
  | 0, _, _ => none
  | fuel + 1, dealer, st =>
    if dealer.hard_total < 17 ∨
        (dealer.hard_total = 17 ∧ rules.dealer_hits_soft17 ∧ dealer.is_soft) then
      match drawFn st with
      | none => none
      | some (c, st1) => dealerTurn drawFn rules fuel (dealer.add c) st1
    else
      some (dealer, st)

/-- What `Round::play` leaves behind: the returned `RoundResult` plus the
final hands (`Round::player()` / `Round::dealer()`), the card-source state,
and the number of strategy queries made. -/
structure PlayResult (σ : Type) where
  result : RoundResult
  player : Hand
  dealer : Hand
  rest : σ
  queries : Nat

/-- `Round::play`: interleaved initial deal (player, dealer, player, dealer),
dealer peek, player blackjack check, player turn, dealer turn, settlement. -/
def play {σ : Type} (drawFn : σ → Option (Card × σ)) (fuel : Nat) (rules : Rules)
    (strat : Strategy) (bet : Int) (st : σ) : Option (PlayResult σ) := do
  let (c0, st1) ← drawFn st
  let (c1, st2) ← drawFn st1
  let (c2, st3) ← drawFn st2
  let (c3, st4) ← drawFn st3
  let player : Hand := { cards := [c0, c2], doubled := false, surrendered := false }
  let dealer : Hand := { cards := [c1, c3], doubled := false, surrendered := false }
  if rules.peek_for_blackjack ∧ dealer.is_blackjack then
    if player.is_blackjack then
      some { result := settle rules bet player dealer Outcome.Push,
             player := player, dealer := dealer, rest := st4, queries := 0 }
    else
      some { result := settle rules bet player dealer Outcome.DealerBJ,
             player := player, dealer := dealer, rest := st4, queries := 0 }
  else if player.is_blackjack then
    some { result := settle rules bet player dealer Outcome.PlayerBJ,
           player := player, dealer := dealer, rest := st4, queries := 0 }
  else do
    let pt ← playerTurn drawFn rules strat dealer fuel player rules.double_allowed st4 0
    match pt.exit with
    | PTExit.surrendered =>
      some { result := settle rules bet pt.player dealer Outcome.PlayerSurrender,
             player := pt.player, dealer := dealer, rest := pt.st, queries := pt.queries }
    | PTExit.busted =>
      some { result := settle rules bet pt.player dealer Outcome.PlayerBust,
             player := pt.player, dealer := dealer, rest := pt.st, queries := pt.queries }
    | PTExit.stood => do
      let (d1, st5) ← dealerTurn drawFn rules fuel dealer pt.st
      if d1.is_bust then
        some { result := settle rules bet pt.player d1 Outcome.DealerBust,
               player := pt.player, dealer := d1, rest := st5, queries := pt.queries }
      else if d1.hard_total < pt.player.hard_total then
        some { result := settle rules bet pt.player d1 Outcome.PlayerWin,
               player := pt.player, dealer := d1, rest := st5, queries := pt.queries }
      else if pt.player.hard_total < d1.hard_total then
        some { result := settle rules bet pt.player d1 Outcome.DealerWin,
               player := pt.player, dealer := d1, rest := st5, queries := pt.queries }
      else
        some { result := settle rules bet pt.player d1 Outcome.Push,
               player := pt.player, dealer := d1, rest := st5, queries := pt.queries }

/-- Draw function of the plain-list card source used by concrete theorems. -/
def listDraw : List Card → Option (Card × List Card)
  | [] => none
  | c :: rest => some (c, rest)

-- ---------- Simulation harness ----------

structure SimStats where
  rounds : Nat
  player_wins : Nat
  dealer_wins : Nat
  pushes : Nat
  player_bj : Nat
  dealer_bj : Nat
  busts : Nat
  surrenders : Nat
  bankroll_cents : Int
deriving DecidableEq, Repr

def SimStats.init : SimStats :=
  { rounds := 0, player_wins := 0, dealer_wins := 0, pushes := 0, player_bj := 0,
    dealer_bj := 0, busts := 0, surrenders := 0, bankroll_cents := 0 }

/-- The per-round fold of `simulate`: `rounds++`, bankroll adjusted by payout
minus the amount staked, and the `switch` on the outcome. -/
def foldRound (bet : Int) (stats : SimStats) (res : RoundResult) (doubled : Bool) : SimStats :=
  let s1 := { stats with
    rounds := stats.rounds + 1
    bankroll_cents := stats.bankroll_cents + (res.payout_cents - (if doubled then bet * 2 else bet)) }
  match res.outcome with
  | Outcome.PlayerBJ => { s1 with player_bj := s1.player_bj + 1, player_wins := s1.player_wins + 1 }
  | Outcome.DealerBJ => { s1 with dealer_bj := s1.dealer_bj + 1, dealer_wins := s1.dealer_wins + 1 }
  | Outcome.DealerBust => { s1 with player_wins := s1.player_wins + 1, busts := s1.busts + 1 }
  | Outcome.PlayerBust => { s1 with dealer_wins := s1.dealer_wins + 1, busts := s1.busts + 1 }
  | Outcome.PlayerWin => { s1 with player_wins := s1.player_wins + 1 }
  | Outcome.DealerWin => { s1 with dealer_wins := s1.dealer_wins + 1 }
  | Outcome.Push => { s1 with pushes := s1.pushes + 1 }
  | Outcome.PlayerSurrender => { s1 with surrenders := s1.surrenders + 1 }

/-- The round loop of `simulate`, generic in the card source. -/
def simulateRounds {σ : Type} (drawFn : σ → Option (Card × σ)) (fuel : Nat)
    (rules : Rules) (strat : Strategy) (bet : Int) :
    Nat → σ → SimStats → Option SimStats
  | 0, _, stats => some stats
  | n + 1, st, stats =>
    match play drawFn fuel rules strat bet st with
    | none => none
    | some pr =>
      simulateRounds drawFn fuel rules strat bet n pr.rest
        (foldRound bet stats pr.result pr.player.doubled)

/-- `simulate(n, rules, seed, bet_cents, strategy)`: one Shoe built from
`rules.num_decks` and `seed`, `n` sequential rounds against it, results
folded into `SimStats`; a null strategy falls back to `AlwaysHitUnder17`. -/
def simulate (n : Nat) (rules : Rules) (seed : Nat) (bet_cents : Int)
    (strategy : Option Strategy) (fuel : Nat) : Option SimStats :=
  let strat := strategy.getD AlwaysHitUnder17
  simulateRounds Shoe.draw fuel rules strat bet_cents n (mkShoe rules.num_decks seed) SimStats.init

/-- The per-round statistics update exactly as the specification words it:
increment the round count, add payout minus the staked amount (double the bet
if the hand was doubled) to the bankroll, increment the matching outcome
counters (blackjacks also count as the corresponding win; the two bust
outcomes also feed the shared bust counter). -/
def specFold (bet : Int) (stats : SimStats) (res : RoundResult) (doubled : Bool) : SimStats :=
  { rounds := stats.rounds + 1
    bankroll_cents := stats.bankroll_cents + (res.payout_cents - (if doubled then 2 * bet else bet))
    player_wins := stats.player_wins +
      (match res.outcome with
       | Outcome.PlayerBJ => 1 | Outcome.DealerBust => 1 | Outcome.PlayerWin => 1 | _ => 0)
    dealer_wins := stats.dealer_wins +
      (match res.outcome with
       | Outcome.DealerBJ => 1 | Outcome.PlayerBust => 1 | Outcome.DealerWin => 1 | _ => 0)
    pushes := stats.pushes + (if res.outcome = Outcome.Push then 1 else 0)
    player_bj := stats.player_bj + (if res.outcome = Outcome.PlayerBJ then 1 else 0)
    dealer_bj := stats.dealer_bj + (if res.outcome = Outcome.DealerBJ then 1 else 0)
    busts := stats.busts +
      (match res.outcome with
       | Outcome.DealerBust => 1 | Outcome.PlayerBust => 1 | _ => 0)
    surrenders := stats.surrenders + (if res.outcome = Outcome.PlayerSurrender then 1 else 0) }

-- ---------- Concrete cards, hands and strategies used by the checks ----------

def cA : Card := { rank := 14, suit := 0 }
def cA2 : Card := { rank := 14, suit := 1 }
def cK : Card := { rank := 13, suit := 0 }
def cK2 : Card := { rank := 13, suit := 1 }
def cT : Card := { rank := 10, suit := 0 }
def cT2 : Card := { rank := 10, suit := 1 }
def cT3 : Card := { rank := 10, suit := 2 }
def c9 : Card := { rank := 9, suit := 0 }
def c6 : Card := { rank := 6, suit := 0 }
def c5 : Card := { rank := 5, suit := 0 }

def mkHand (l : List Card) : Hand := { cards := l, doubled := false, surrendered := false }

/-- A strategy that doubles at every opportunity. -/
def alwaysDouble : Strategy := fun _ => Decision.Double

-- ===================== Theorems =====================

-- Closed form for the Ace-reduction loop: it performs
-- `min aces ((total - 12) / 10)` reductions of 10.
theorem reduceAces_closed (aces total : Nat) :
    reduceAces total aces = total - 10 * min aces ((total - 12) / 10) := by
  induction aces generalizing total with
  | zero => simp [reduceAces]
  | succ n ih =>
    rw [reduceAces]
    by_cases h : 21 < total
    · rw [if_pos h, ih]
      omega
    · rw [if_neg h]
      omega

theorem mem_achievableTotals (h : Hand) (t : Nat) :
    t ∈ achievableTotals h ↔
      ∃ j, j ≤ countAces h.cards ∧ t = sumValues h.cards - 10 * j := by
  simp only [achievableTotals, List.mem_map, List.mem_range]
  constructor
  · rintro ⟨j, hj, rfl⟩
    exact ⟨j, by omega, rfl⟩
  · rintro ⟨j, hj, rfl⟩
    exact ⟨j, by omega, rfl⟩

/-- C1 (amended): `hard_total()` is the sum with all Aces at 11 passed through
the one-Ace-at-a-time reduction loop; with zero Aces it is the plain pip/face
sum even above 21; it always lies among the achievable totals (each Ace 11 or
1); when a non-bust achievable total exists it is the greatest such total
(Aces minimally reduced, e.g. two Aces + a 9 give 21); and when none exists it
is the minimum achievable total (every Ace reduced to 1). -/
theorem C1_hard_total_best (h : Hand) :
    h.hard_total = reduceAces (sumValues h.cards) (countAces h.cards) ∧
    (countAces h.cards = 0 → h.hard_total = sumValues h.cards) ∧
    h.hard_total ∈ achievableTotals h ∧
    (∀ t ∈ achievableTotals h, t ≤ 21 → t ≤ h.hard_total) ∧
    ((∃ t ∈ achievableTotals h, t ≤ 21) → h.hard_total ≤ 21) ∧
    ((∀ t ∈ achievableTotals h, 21 < t) →
      h.hard_total = sumValues h.cards - 10 * countAces h.cards) := by
  set S := sumValues h.cards with hS
  set A := countAces h.cards with hA
  have hht : h.hard_total = S - 10 * min A ((S - 12) / 10) := by
    rw [Hand.hard_total, reduceAces_closed]
  refine ⟨rfl, ?_, ?_, ?_, ?_, ?_⟩
  · intro h0
    rw [hht, h0]
    omega
  · rw [mem_achievableTotals, hht]
    exact ⟨min A ((S - 12) / 10), by omega, rfl⟩
  · intro t ht hle
    rw [mem_achievableTotals] at ht
    obtain ⟨j, hj, rfl⟩ := ht
    rw [hht]
    omega
  · rintro ⟨t, ht, hle⟩
    rw [mem_achievableTotals] at ht
    obtain ⟨j, hj, rfl⟩ := ht
    rw [hht]
    omega
  · intro hall
    have hA' := hall (S - 10 * A) ((mem_achievableTotals h _).mpr ⟨A, le_refl A, rfl⟩)
    rw [hht]
    omega

/-- C1 witness: for the hand {Ace, 9} a non-bust achievable total exists, the
code's total 20 is achievable, non-bust, and dominates the non-bust
alternatives. -/
theorem C1_hard_total_best_witness :
    (mkHand [cA, c9]).hard_total ∈ achievableTotals (mkHand [cA, c9]) ∧
    (mkHand [cA, c9]).hard_total ≤ 21 ∧
    10 ≤ (mkHand [cA, c9]).hard_total :=
  ⟨(C1_hard_total_best (mkHand [cA, c9])).2.2.1,
   (C1_hard_total_best (mkHand [cA, c9])).2.2.2.2.1 ⟨10, by decide, by decide⟩,
   (C1_hard_total_best (mkHand [cA, c9])).2.2.2.1 10 (by decide) (by decide)⟩

/-- C1 counterexample: for {Ace, Ace, 9} the achievable totals are 31, 21 and
11; the minimal achievable non-bust total is therefore 11, yet `hard_total()`
returns 21 — the code picks the greatest non-bust achievable total, not the
minimal one. -/
theorem C1_counterexample :
    (mkHand [cA, cA2, c9]).hard_total = 21 ∧
    11 ∈ achievableTotals (mkHand [cA, cA2, c9]) ∧ 11 ≤ 21 ∧
    (∀ t ∈ achievableTotals (mkHand [cA, cA2, c9]), t ≤ 21 → 11 ≤ t) ∧
    (mkHand [cA, cA2, c9]).hard_total ≠ 11 := by
  exact ⟨by decide, by decide, by decide, by decide, by decide⟩

-- In the source's `is_soft`, the recomputed `base` of the per-card lambda is
-- produced by exactly the computation `hard_total()` performs, so the final
-- conjunct `base != hard_total()` can never hold: the predicate is
-- identically false.
theorem is_soft_always_false (h : Hand) : h.is_soft = false := by
  rw [Hand.is_soft, List.any_eq_false]
  intro c hc
  by_cases hr : c.rank = Ace
  · simp [hr, Hand.hard_total]
  · simp [hr]

/-- C5 (code bug): the spec's contract — soft iff an Ace is still valued 11 in
the optimal total — is violated by the code: `is_soft()` returns `false` for
every hand, because the `base` it recomputes always equals `hard_total()` and
the conjunct `base != hard_total()` kills the predicate.  At the failing input
{Ace, 6} (a soft 17, as the spec's own intended contract `softSpec` computes)
the code still answers `false`. -/
theorem C5_is_soft_code_bug :
    (∀ h : Hand, h.is_soft = false) ∧
    (mkHand [cA, c6]).is_soft = false ∧
    softSpec (mkHand [cA, c6]) = true ∧
    (mkHand [cA, c6]).hard_total = 17 :=
  ⟨is_soft_always_false, is_soft_always_false _, by decide, by decide⟩

/-- C2: `Round::settle` realises the settlement table — PlayerBJ pays stake
plus the blackjack bonus under truncating division (250 for bet 100 at 3:2,
220 at 6:5); DealerBJ, PlayerBust and DealerWin pay 0 (DealerWin regardless of
doubling); DealerBust and PlayerWin pay 2×bet, 4×bet when doubled; Push
returns the stake (doubled stake when doubled); PlayerSurrender returns half
the stake with integer truncation (101 → 50). -/
theorem C2_settlement_table :
    (∀ (rules : Rules) (bet : Int) (p d : Hand),
      (settle rules bet p d Outcome.PlayerBJ).payout_cents =
          bet + Int.tdiv (bet * rules.blackjack_pays_num) rules.blackjack_pays_den ∧
      (settle rules bet p d Outcome.DealerBJ).payout_cents = 0 ∧
      (settle rules bet p d Outcome.PlayerBust).payout_cents = 0 ∧
      (settle rules bet p d Outcome.DealerWin).payout_cents = 0 ∧
      (settle rules bet p d Outcome.DealerBust).payout_cents =
          (if p.doubled then bet * 4 else bet * 2) ∧
      (settle rules bet p d Outcome.PlayerWin).payout_cents =
          (if p.doubled then bet * 4 else bet * 2) ∧
      (settle rules bet p d Outcome.Push).payout_cents =
          (if p.doubled then bet * 2 else bet) ∧
      (settle rules bet p d Outcome.PlayerSurrender).payout_cents = Int.tdiv bet 2) ∧
    (settle defaultRules 100 (mkHand []) (mkHand []) Outcome.PlayerBJ).payout_cents = 250 ∧
    (settle { defaultRules with blackjack_pays_num := 6, blackjack_pays_den := 5 } 100
        (mkHand []) (mkHand []) Outcome.PlayerBJ).payout_cents = 220 ∧
    (settle defaultRules 100 (mkHand []) (mkHand []) Outcome.Push).payout_cents = 100 ∧
    (settle defaultRules 100 (mkHand []) (mkHand []) Outcome.PlayerWin).payout_cents = 200 ∧
    (settle defaultRules 100 { mkHand [] with doubled := true } (mkHand [])
        Outcome.PlayerWin).payout_cents = 400 ∧
    (settle defaultRules 100 { mkHand [] with doubled := true } (mkHand [])
        Outcome.Push).payout_cents = 200 ∧
    (settle defaultRules 100 { mkHand [] with doubled := true } (mkHand [])
        Outcome.DealerWin).payout_cents = 0 ∧
    (settle defaultRules 101 (mkHand []) (mkHand []) Outcome.PlayerSurrender).payout_cents = 50 :=
  ⟨fun _ _ _ _ => ⟨rfl, rfl, rfl, rfl, rfl, rfl, rfl, rfl⟩,
   by decide, by decide, by decide, by decide, by decide, by decide, by decide, by decide⟩

/-- C3: with peek enabled, a dealer natural resolves the round before the
player acts — Push when the player also holds a natural, DealerBJ otherwise;
when the dealer has no natural (or peek is disabled) a player natural resolves
PlayerBJ.  In all three cases the hands keep their initial two cards, no
further card is drawn, and the strategy is never queried. -/
theorem C3_blackjack_resolution (fuel : Nat) (rules : Rules) (strat : Strategy)
    (bet : Int) (c0 c1 c2 c3 : Card) (rest : List Card) :
    (rules.peek_for_blackjack = true →
      (mkHand [c1, c3]).is_blackjack = true →
      (mkHand [c0, c2]).is_blackjack = true →
      (play listDraw fuel rules strat bet (c0 :: c1 :: c2 :: c3 :: rest)).map
          (fun r => (r.result.outcome, r.player, r.dealer, r.rest, r.queries)) =
        some (Outcome.Push, mkHand [c0, c2], mkHand [c1, c3], rest, 0)) ∧
    (rules.peek_for_blackjack = true →
      (mkHand [c1, c3]).is_blackjack = true →
      (mkHand [c0, c2]).is_blackjack = false →
      (play listDraw fuel rules strat bet (c0 :: c1 :: c2 :: c3 :: rest)).map
          (fun r => (r.result.outcome, r.player, r.dealer, r.rest, r.queries)) =
        some (Outcome.DealerBJ, mkHand [c0, c2], mkHand [c1, c3], rest, 0)) ∧
    ((rules.peek_for_blackjack = false ∨ (mkHand [c1, c3]).is_blackjack = false) →
      (mkHand [c0, c2]).is_blackjack = true →
      (play listDraw fuel rules strat bet (c0 :: c1 :: c2 :: c3 :: rest)).map
          (fun r => (r.result.outcome, r.player, r.dealer, r.rest, r.queries)) =
        some (Outcome.PlayerBJ, mkHand [c0, c2], mkHand [c1, c3], rest, 0)) := by
  refine ⟨?_, ?_, ?_⟩
  · intro hp hd hpl
    simp only [mkHand] at hd hpl
    simp [play, listDraw, mkHand, hp, hd, hpl, settle]
  · intro hp hd hpl
    simp only [mkHand] at hd hpl
    simp [play, listDraw, mkHand, hp, hd, hpl, settle]
  · rintro (hp | hd) hpl
    · simp only [mkHand] at hpl
      simp [play, listDraw, mkHand, hp, hpl, settle]
    · simp only [mkHand] at hd hpl
      simp [play, listDraw, mkHand, hd, hpl, settle]

/-- C3 witness: both sides dealt naturals under peek → Push with zero strategy
queries; the interleaved deal gives the player cards 0 and 2. -/
theorem C3_blackjack_resolution_witness :
    (play listDraw 5 defaultRules alwaysDouble 100 (cA :: cA2 :: cK :: cK2 :: [])).map
        (fun r => (r.result.outcome, r.player, r.dealer, r.rest, r.queries)) =
      some (Outcome.Push, mkHand [cA, cK], mkHand [cA2, cK2], [], 0) :=
  (C3_blackjack_resolution 5 defaultRules alwaysDouble 100 cA cA2 cK cK2 []).1
    rfl (by decide) (by decide)

/-- C4: the dealer-turn loop draws exactly while the hard total is below 17,
or equal to 17 on a (program-)soft hand under H17; whenever the loop exits
normally the final hard total is at least 17 (a bust included), and a final
total of exactly 17 under H17 is never (program-)soft. -/
theorem C4_dealer_turn {σ : Type} (drawFn : σ → Option (Card × σ)) (rules : Rules) :
    (∀ (fuel : Nat) (d : Hand) (st : σ),
      (d.hard_total < 17 ∨ (d.hard_total = 17 ∧ rules.dealer_hits_soft17 ∧ d.is_soft)) →
        dealerTurn drawFn rules (fuel + 1) d st =
          match drawFn st with
          | none => none
          | some (c, st1) => dealerTurn drawFn rules fuel (d.add c) st1) ∧
    (∀ (fuel : Nat) (d : Hand) (st : σ),
      ¬(d.hard_total < 17 ∨ (d.hard_total = 17 ∧ rules.dealer_hits_soft17 ∧ d.is_soft)) →
        dealerTurn drawFn rules (fuel + 1) d st = some (d, st)) ∧
    (∀ (fuel : Nat) (d : Hand) (st : σ) (d1 : Hand) (st1 : σ),
      dealerTurn drawFn rules fuel d st = some (d1, st1) →
        17 ≤ d1.hard_total ∧
        (d1.hard_total = 17 ∧ rules.dealer_hits_soft17 = true → d1.is_soft = false)) := by
  refine ⟨?_, ?_, ?_⟩
  · intro fuel d st hcond
    rw [dealerTurn, if_pos hcond]
  · intro fuel d st hcond
    rw [dealerTurn, if_neg hcond]
  · intro fuel
    induction fuel with
    | zero =>
      intro d st d1 st1 hrun
      simp [dealerTurn] at hrun
    | succ n ih =>
      intro d st d1 st1 hrun
      rw [dealerTurn] at hrun
      split at hrun
      · cases hdr : drawFn st with
        | none => rw [hdr] at hrun; exact absurd hrun (by simp)
        | some cst =>
          rw [hdr] at hrun
          exact ih _ _ _ _ hrun
      · rename_i hcond
        push_neg at hcond
        cases hrun
        refine ⟨by omega, ?_⟩
        rintro ⟨h17, hH⟩
        by_contra hs
        rw [Bool.not_eq_false] at hs
        exact hcond.2 h17 hH hs

-- Once doubling is illegal (`canDouble = false`), no iteration of the player
-- turn can ever set the `doubled` flag.
theorem playerTurn_no_double {σ : Type} (drawFn : σ → Option (Card × σ)) (rules : Rules)
    (strat : Strategy) (dealer : Hand) :
    ∀ (fuel : Nat) (player : Hand) (st : σ) (q : Nat) (r : PTRes σ),
      player.doubled = false →
      playerTurn drawFn rules strat dealer fuel player false st q = some r →
      r.player.doubled = false := by
  intro fuel
  induction fuel with
  | zero =>
    intro p st q r hp hrun
    simp [playerTurn] at hrun
  | succ n ih =>
    intro p st q r hp hrun
    rw [playerTurn] at hrun
    split at hrun
    · cases hrun
      exact hp
    · split at hrun
      · rename_i hdbl
        exact absurd hdbl.2 (by simp)
      · split at hrun
        · cases hdr : drawFn st with
          | none => simp [hdr] at hrun
          | some cst =>
            obtain ⟨c, st1⟩ := cst
            simp only [hdr] at hrun
            split at hrun
            · cases hrun
              exact hp
            · exact ih (p.add c) st1 _ r hp hrun
        · cases hrun
          exact hp

-- `Round::play` can set the `doubled` flag only through the player-turn loop,
-- so with `double_allowed = false` the round never doubles.
theorem play_no_double {σ : Type} (drawFn : σ → Option (Card × σ)) (fuel : Nat)
    (rules : Rules) (strat : Strategy) (bet : Int) (st : σ) (pr : PlayResult σ)
    (hda : rules.double_allowed = false)
    (hrun : play drawFn fuel rules strat bet st = some pr) :
    pr.player.doubled = false := by
  rw [play] at hrun
  cases h0 : drawFn st with
  | none => simp [h0] at hrun
  | some x0 =>
  obtain ⟨c0, st1⟩ := x0
  simp only [h0, Option.bind_eq_bind, Option.some_bind] at hrun
  cases h1 : drawFn st1 with
  | none => simp [h1] at hrun
  | some x1 =>
  obtain ⟨c1, st2⟩ := x1
  simp only [h1, Option.some_bind] at hrun
  cases h2 : drawFn st2 with
  | none => simp [h2] at hrun
  | some x2 =>
  obtain ⟨c2, st3⟩ := x2
  simp only [h2, Option.some_bind] at hrun
  cases h3 : drawFn st3 with
  | none => simp [h3] at hrun
  | some x3 =>
  obtain ⟨c3, st4⟩ := x3
  simp only [h3, Option.some_bind] at hrun
  rw [hda] at hrun
  split at hrun
  · split at hrun
    · cases hrun; rfl
    · cases hrun; rfl
  · split at hrun
    · cases hrun; rfl
    · cases hpt : playerTurn drawFn rules strat
          { cards := [c1, c3], doubled := false, surrendered := false } fuel
          { cards := [c0, c2], doubled := false, surrendered := false } false st4 0 with
      | none => simp [hpt] at hrun
      | some pt =>
        have hptd : pt.player.doubled = false :=
          playerTurn_no_double drawFn rules strat _ fuel _ st4 0 pt rfl hpt
        simp only [hpt, Option.some_bind] at hrun
        split at hrun
        · cases hrun; exact hptd
        · cases hrun; exact hptd
        · cases hdt : dealerTurn drawFn rules fuel
              { cards := [c1, c3], doubled := false, surrendered := false } pt.st with
          | none => simp [hdt] at hrun
          | some dst =>
            obtain ⟨d1, st5⟩ := dst
            simp only [hdt, Option.some_bind] at hrun
            split at hrun
            · cases hrun; exact hptd
            · split at hrun
              · cases hrun; exact hptd
              · split at hrun
                · cases hrun; exact hptd
                · cases hrun; exact hptd

/-- C6: doubling legality — (1) once doubling is illegal the player hand can
never end doubled; (2) a Double returned while doubling is illegal is treated
exactly as Stand: the loop exits with the hand and the card source untouched;
(3) with `double_allowed = false` no completed round ever has a doubled player
hand; (4) after a first-action Hit, doubling is illegal for the rest of the
round, so the hand never ends doubled. -/
theorem C6_double_legality {σ : Type} (drawFn : σ → Option (Card × σ)) (rules : Rules)
    (strat : Strategy) (dealer : Hand) :
    (∀ (fuel : Nat) (player : Hand) (st : σ) (q : Nat) (r : PTRes σ),
      player.doubled = false →
      playerTurn drawFn rules strat dealer fuel player false st q = some r →
      r.player.doubled = false) ∧
    (∀ (fuel : Nat) (player : Hand) (st : σ) (q : Nat),
      strat { player := player, dealer := dealer, rules := rules, can_double := false } =
          Decision.Double →
      playerTurn drawFn rules strat dealer (fuel + 1) player false st q =
        some { exit := PTExit.stood, player := player, st := st,
               queries := (if rules.surrender ∧ player.cards.length = 2 then q + 1 else q) + 1 }) ∧
    (∀ (fuel : Nat) (bet : Int) (st : σ) (pr : PlayResult σ),
      rules.double_allowed = false →
      play drawFn fuel rules strat bet st = some pr →
      pr.player.doubled = false) ∧
    (∀ (fuel : Nat) (player : Hand) (st : σ) (q : Nat) (r : PTRes σ),
      player.doubled = false →
      strat { player := player, dealer := dealer, rules := rules, can_double := true } =
          Decision.Hit →
      playerTurn drawFn rules strat dealer fuel player true st q = some r →
      r.player.doubled = false) := by
  refine ⟨playerTurn_no_double drawFn rules strat dealer, ?_, ?_, ?_⟩
  · intro fuel p st q hst
    rw [playerTurn]
    rw [if_neg ?hsur]
    case hsur =>
      rintro ⟨-, -, hS⟩
      rw [hst] at hS
      exact Decision.noConfusion hS
    rw [if_neg ?hdbl]
    case hdbl =>
      rintro ⟨-, hcd⟩
      exact absurd hcd (by simp)
    rw [if_neg ?hhit]
    case hhit =>
      intro hH
      rw [hst] at hH
      exact Decision.noConfusion hH
  · intro fuel bet st pr hda hrun
    exact play_no_double drawFn fuel rules strat bet st pr hda hrun
  · intro fuel p st q r hp hst hrun
    cases fuel with
    | zero => simp [playerTurn] at hrun
    | succ n =>
      rw [playerTurn] at hrun
      rw [if_neg ?hsur] at hrun
      case hsur =>
        rintro ⟨-, -, hS⟩
        rw [hst] at hS
        exact Decision.noConfusion hS
      rw [if_neg ?hdbl] at hrun
      case hdbl =>
        rintro ⟨hD, -⟩
        rw [hst] at hD
        exact Decision.noConfusion hD
      rw [if_pos hst] at hrun
      cases hdr : drawFn st with
      | none => simp [hdr] at hrun
      | some cst =>
        obtain ⟨c, st1⟩ := cst
        simp only [hdr] at hrun
        split at hrun
        · cases hrun
          exact hp
        · exact playerTurn_no_double drawFn rules strat dealer n (p.add c) st1 _ r hp hrun

/-- C6 witness: with doubling disallowed and a strategy that always answers
Double, the player turn ends immediately as a Stand — no card drawn, hand
unchanged, one strategy query (surrender is off in the default rules). -/
theorem C6_double_legality_witness :
    playerTurn listDraw defaultRules alwaysDouble (mkHand [cT2, c9]) 1
        (mkHand [cT, c6]) false [cK] 0 =
      some { exit := PTExit.stood, player := mkHand [cT, c6], st := [cK],
             queries := (if defaultRules.surrender ∧ (mkHand [cT, c6]).cards.length = 2
                         then 0 + 1 else 0) + 1 } :=
  (C6_double_legality listDraw defaultRules alwaysDouble (mkHand [cT2, c9])).2.1
    0 (mkHand [cT, c6]) [cK] 0 rfl

/-- C10: a legal Double draws exactly one card with no bust check and leaves
the player turn standing (never busted); consequently a doubled hand whose
hard total exceeds 21 is still compared against the dealer at settlement —
concretely, a doubled 26 against a dealer 19 settles as PlayerWin with payout
4×bet, not as PlayerBust. -/
theorem C10_double_bust_wins :
    (∀ (σ : Type) (drawFn : σ → Option (Card × σ)) (rules : Rules) (strat : Strategy)
       (dealer : Hand) (fuel : Nat) (player : Hand) (st st1 : σ) (q : Nat) (c : Card),
      rules.surrender = false →
      strat { player := player, dealer := dealer, rules := rules, can_double := true } =
          Decision.Double →
      drawFn st = some (c, st1) →
      playerTurn drawFn rules strat dealer (fuel + 1) player true st q =
        some { exit := PTExit.stood, player := { (player.add c) with doubled := true },
               st := st1, queries := q + 1 }) ∧
    ((play listDraw 10 defaultRules alwaysDouble 100 [cT, cT2, c6, c9, cK]).map
        (fun r => (r.result.outcome, r.result.player_total, r.result.dealer_total,
                   r.result.payout_cents, r.player.doubled)) =
      some (Outcome.PlayerWin, 26, 19, 400, true)) := by
  constructor
  · intro σ drawFn rules strat dealer fuel p st st1 q c hsur hst hdr
    rw [playerTurn]
    rw [if_neg ?h1]
    case h1 =>
      rintro ⟨hs, -, -⟩
      rw [hsur] at hs
      exact Bool.noConfusion hs
    rw [if_pos ⟨hst, rfl⟩]
    simp only [hdr]
    simp [hsur]
  · decide

/-- C10 witness: the doubling step applied at a concrete table — one card
drawn, hand doubled, loop left standing. -/
theorem C10_double_bust_wins_witness :
    playerTurn listDraw defaultRules alwaysDouble (mkHand [cT2, c9]) 3
        (mkHand [cT, c6]) true [cK] 0 =
      some { exit := PTExit.stood,
             player := { (mkHand [cT, c6]).add cK with doubled := true },
             st := [], queries := 0 + 1 } :=
  C10_double_bust_wins.1 (List Card) listDraw defaultRules alwaysDouble (mkHand [cT2, c9])
    2 (mkHand [cT, c6]) [cK] [] 0 cK rfl rfl rfl

/-- C4 witness: a dealer standing pat on a hard 19 exits the loop at once with
a final total of at least 17. -/
theorem C4_dealer_turn_witness :
    17 ≤ (mkHand [cT, c9]).hard_total ∧
    ((mkHand [cT, c9]).hard_total = 17 ∧ defaultRules.dealer_hits_soft17 = true →
      (mkHand [cT, c9]).is_soft = false) :=
  (C4_dealer_turn listDraw defaultRules).2.2 1 (mkHand [cT, c9]) [] (mkHand [cT, c9]) []
    (by decide)

-- The fold of `simulate` bumps the round counter by exactly one per round.
theorem foldRound_rounds (bet : Int) (stats : SimStats) (res : RoundResult) (doubled : Bool) :
    (foldRound bet stats res doubled).rounds = stats.rounds + 1 := by
  obtain ⟨oc, pt, dt, pay⟩ := res
  cases oc <;> rfl

-- A completed batch of n rounds advances the round counter by n.
theorem simulateRounds_rounds {σ : Type} (drawFn : σ → Option (Card × σ)) (fuel : Nat)
    (rules : Rules) (strat : Strategy) (bet : Int) :
    ∀ (n : Nat) (st : σ) (stats out : SimStats),
      simulateRounds drawFn fuel rules strat bet n st stats = some out →
      out.rounds = stats.rounds + n := by
  intro n
  induction n with
  | zero =>
    intro st stats out hrun
    simp [simulateRounds] at hrun
    simp [← hrun]
  | succ m ih =>
    intro st stats out hrun
    rw [simulateRounds] at hrun
    cases hp : play drawFn fuel rules strat bet st with
    | none => simp [hp] at hrun
    | some pr =>
      simp only [hp] at hrun
      rw [ih pr.rest _ out hrun, foldRound_rounds]
      omega

/-- C7: every completed batch reports exactly the requested number of rounds,
starting from zeroed statistics; each round's result is folded in order into
the running statistics; and the per-round fold is precisely the update the
spec describes — bankroll gains payout minus the amount staked (double the
bet when the hand was doubled), blackjacks feed both the blackjack counter
and the corresponding win counter, the two bust outcomes feed the shared bust
counter, and the remaining outcomes bump their single counter. -/
theorem C7_simulate_fold :
    (∀ (σ : Type) (drawFn : σ → Option (Card × σ)) (fuel : Nat) (rules : Rules)
       (strat : Strategy) (bet : Int) (n : Nat) (st : σ) (stats out : SimStats),
      simulateRounds drawFn fuel rules strat bet n st stats = some out →
      out.rounds = stats.rounds + n) ∧
    (∀ (n : Nat) (rules : Rules) (seed : Nat) (bet : Int) (strategy : Option Strategy)
       (fuel : Nat) (out : SimStats),
      simulate n rules seed bet strategy fuel = some out → out.rounds = n) ∧
    (∀ (bet : Int) (stats : SimStats) (res : RoundResult) (doubled : Bool),
      foldRound bet stats res doubled = specFold bet stats res doubled) ∧
    (∀ (σ : Type) (drawFn : σ → Option (Card × σ)) (fuel : Nat) (rules : Rules)
       (strat : Strategy) (bet : Int) (n : Nat) (st : σ) (stats : SimStats)
       (pr : PlayResult σ),
      play drawFn fuel rules strat bet st = some pr →
      simulateRounds drawFn fuel rules strat bet (n + 1) st stats =
        simulateRounds drawFn fuel rules strat bet n pr.rest
          (foldRound bet stats pr.result pr.player.doubled)) := by
  refine ⟨fun σ drawFn fuel rules strat bet => simulateRounds_rounds drawFn fuel rules strat bet,
          ?_, ?_, ?_⟩
  · intro n rules seed bet strategy fuel out hrun
    simp only [simulate] at hrun
    have := simulateRounds_rounds Shoe.draw fuel rules _ bet n _ SimStats.init out hrun
    simpa [SimStats.init] using this
  · intro bet stats res doubled
    obtain ⟨oc, pt, dt, pay⟩ := res
    cases oc <;> simp [foldRound, specFold, Int.mul_comm]
  · intro σ drawFn fuel rules strat bet n st stats pr hp
    rw [simulateRounds]
    simp [hp]

/-- C7 witness: one full round drawn from a concrete card list — the player
(16) hits to 26 and busts, so the completed batch reports one round, a dealer
win, one bust, and a bankroll down by the stake. -/
theorem C7_simulate_fold_witness :
    (SimStats.mk 1 0 1 0 0 0 1 0 (-100)).rounds = SimStats.init.rounds + 1 :=
  C7_simulate_fold.1 (List Card) listDraw 10 defaultRules AlwaysHitUnder17 100 1
    [cT, cT2, c6, c9, cK, c5] SimStats.init (SimStats.mk 1 0 1 0 0 0 1 0 (-100))
    (by decide)

/-- C8: the Shoe keeps `0 ≤ cursor ≤ size` across construction, reset,
shuffle and draw; a shuffle permutes the full sequence in place preserving its
size; with cards remaining, `draw()` returns the card at the cursor and
advances it; on an exhausted cursor it reshuffles the full sequence in place,
resets the cursor (returning the first card of the new order, cursor 1), so
`remaining()` is then the full size minus one; and `remaining()` always equals
`size − cursor`. -/
theorem C8_shoe_invariant :
    (∀ (decks seed : Nat), (mkShoe decks seed).inv) ∧
    (∀ (s : Shoe) (decks : Nat), (s.reset decks).inv) ∧
    (∀ s : Shoe, s.inv → s.shuffle.inv) ∧
    (∀ s : Shoe, s.shuffle.cards.Perm s.cards ∧ s.shuffle.cards.length = s.cards.length) ∧
    (∀ (s : Shoe) (c : Card) (s' : Shoe), s.draw = some (c, s') → s'.inv) ∧
    (∀ (s : Shoe) (h : s.next < s.cards.length),
      s.draw = some (s.cards.get ⟨s.next, h⟩, { s with next := s.next + 1 })) ∧
    (∀ (s : Shoe) (c : Card) (s' : Shoe),
      s.cards.length ≤ s.next → s.draw = some (c, s') →
      s'.cards = shuffleFn s.rng s.cards ∧ s'.cards.length = s.cards.length ∧
      s'.next = 1 ∧ (shuffleFn s.rng s.cards)[(0 : Nat)]? = some c ∧
      s'.remaining = s.cards.length - 1) ∧
    (∀ s : Shoe, s.remaining = s.cards.length - s.next) := by
  refine ⟨?_, ?_, ?_, ?_, ?_, ?_, ?_, fun s => rfl⟩
  · intro decks seed
    simp [Shoe.inv, mkShoe, Shoe.reset]
  · intro s decks
    simp [Shoe.inv, Shoe.reset]
  · intro s hs
    simp only [Shoe.inv, Shoe.shuffle, shuffleFn] at hs ⊢
    rw [List.length_rotate]
    exact hs
  · intro s
    constructor
    · exact List.rotate_perm _ _
    · simp [Shoe.shuffle, shuffleFn]
  · intro s c s' hdraw
    rw [Shoe.draw] at hdraw
    split at hdraw
    · cases hg : (Shoe.shuffle s).cards[(0 : Nat)]? with
      | none => rw [hg] at hdraw; exact absurd hdraw (by simp)
      | some c0 =>
        rw [hg] at hdraw
        cases hdraw
        have : 0 < (Shoe.shuffle s).cards.length := by
          by_contra hlen
          rw [List.getElem?_eq_none (by omega)] at hg
          exact Option.noConfusion hg
        simpa [Shoe.inv] using this
    · cases hg : s.cards[s.next]? with
      | none => rw [hg] at hdraw; exact absurd hdraw (by simp)
      | some c0 =>
        rw [hg] at hdraw
        cases hdraw
        have : s.next < s.cards.length := by
          by_contra hlen
          rw [List.getElem?_eq_none (by omega)] at hg
          exact Option.noConfusion hg
        simp only [Shoe.inv]
        omega
  · intro s h
    rw [Shoe.draw, if_neg (by omega)]
    rw [List.getElem?_eq_getElem h]
    simp [List.get_eq_getElem]
  · intro s c s' hexh hdraw
    rw [Shoe.draw, if_pos hexh] at hdraw
    cases hg : (Shoe.shuffle s).cards[(0 : Nat)]? with
    | none => rw [hg] at hdraw; exact absurd hdraw (by simp)
    | some c0 =>
      rw [hg] at hdraw
      cases hdraw
      have hlen : (shuffleFn s.rng s.cards).length = s.cards.length := by
        simp [shuffleFn]
      refine ⟨rfl, hlen, rfl, ?_, ?_⟩
      · exact hg
      · simp [Shoe.remaining, Shoe.shuffle, hlen]

/-- C8 witness: an in-range draw from a two-card shoe returns the card under
the cursor and advances the cursor. -/
theorem C8_shoe_invariant_witness :
    (Shoe.mk [cT, c9] 0 5).draw =
      some ((Shoe.mk [cT, c9] 0 5).cards.get ⟨0, by decide⟩, Shoe.mk [cT, c9] 1 5) :=
  C8_shoe_invariant.2.2.2.2.2.1 (Shoe.mk [cT, c9] 0 5) (by decide)

/-- C9: the simulation is deterministic — two `simulate` runs whose arguments
(round count, rules, seed, bet, strategy, and the modelling fuel bound)
coincide produce identical `SimStats`; the embedded card source holds the
spec's determinism contract by construction, its generator being a pure
function of the seed. -/
theorem C9_simulate_deterministic :
    ∀ (n n' : Nat) (rules rules' : Rules) (seed seed' : Nat) (bet bet' : Int)
      (strategy strategy' : Option Strategy) (fuel fuel' : Nat),
      n = n' → rules = rules' → seed = seed' → bet = bet' → strategy = strategy' →
      fuel = fuel' →
      simulate n rules seed bet strategy fuel = simulate n' rules' seed' bet' strategy' fuel' := by
  intro n n' rules rules' seed seed' bet bet' strategy strategy' fuel fuel' h1 h2 h3 h4 h5 h6
  rw [h1, h2, h3, h4, h5, h6]

/-- C9 witness: a run against its identically-parameterised twin. -/
theorem C9_simulate_deterministic_witness :
    simulate 3 defaultRules 42 100 Option.none 50 =
      simulate 3 defaultRules 42 100 Option.none 50 :=
  C9_simulate_deterministic 3 3 defaultRules defaultRules 42 42 100 100
    Option.none Option.none 50 50 rfl rfl rfl rfl rfl rfl

end bj
